import Mathlib

/-!
Shallow embedding of the go-eventbus publish/subscribe core
(`bus.go`, `topic.go`: the generic `Bus[T]` over a concurrent map of
`*Observer[T]`, plus the `OffCb` helper defined over that bus).

Handlers are identified by their identity token (`reflect.ValueOf(e)`),
modelled as a `Nat`.  Handler invocations (`e.Dispatch(topic, data)`) and
stop notifications (`e.OnStop(topic)`) are externally visible effects and
are recorded in traces carried by the bus state.  The concurrent map is
modelled as an association list with first-match lookup; the sequential
semantics of each map primitive (`Get`, `Upsert`, `GetCb`, `RemoveCb`,
`IterCb`) is translated directly.
-/

namespace EventBus

/-- A registration (`event[T]` in `event.go`/`topic.go`): identity token
(`tag`), uniqueness flag (`isUnique`), and fired indicator (`hasCalled`). -/
structure Reg where
  tag : Nat
  isUnique : Bool
  hasCalled : Bool
  deriving Repr, DecidableEq

/-- A recorded handler invocation `e.Dispatch(topic, data)`. -/
structure Call (α : Type) where
  tag : Nat
  topic : String
  data : List α
  deriving Repr, DecidableEq

/-- A recorded stop notification `e.OnStop(topic)`. -/
structure Stop where
  tag : Nat
  topic : String
  deriving Repr, DecidableEq

/-- A topic bucket (`Observer[T]` in `topic.go`). -/
structure Observer where
  topic : String
  events : List Reg
  deriving Repr, DecidableEq

/-- The wildcard topic constant `ALL` from `bus.go`. -/
def ALL : String := "*"

/-- Whether a dispatch invokes this registration: persistent registrations
always fire; a once-registration fires iff its CAS `0 → 1` on `hasCalled`
wins, i.e. iff it has not fired yet (`Observer.dispatch` in `topic.go`). -/
def Reg.fires (e : Reg) : Bool := !e.isUnique || !e.hasCalled

/-- Whether this registration is a once-registration that will newly fire
(win the CAS) during a dispatch. -/
def Reg.willFire (e : Reg) : Bool := e.isUnique && !e.hasCalled

/-- The flag update a dispatch performs on a registration. -/
def Reg.fireFlag (e : Reg) : Reg :=
  if e.willFire then { e with hasCalled := true } else e

/-- The loop body of `Observer.dispatch` (`topic.go`): iterate the events
slice in order; persistent registrations are invoked unconditionally; a
once-registration is invoked iff the CAS on `hasCalled` wins, in which case
its tag is appended to `removes`.  Returns the events with updated flags,
the `removes` list, and the invocation trace, all in iteration order. -/
def dispatchList (topic : String) (data : List α) :
    List Reg → List Reg × List Nat × List (Call α)
  | [] => ([], [], [])
  | e :: rest =>
    let r := dispatchList topic data rest
    if e.isUnique then
      if e.hasCalled then (e :: r.1, r.2.1, r.2.2)
      else ({ e with hasCalled := true } :: r.1, e.tag :: r.2.1,
            ⟨e.tag, topic, data⟩ :: r.2.2)
    else (e :: r.1, r.2.1, ⟨e.tag, topic, data⟩ :: r.2.2)

/-- `Observer.dispatch` (`topic.go`). -/
def Observer.dispatch (o : Observer) (data : List α) :
    Observer × List Nat × List (Call α) :=
  let r := dispatchList o.topic data o.events
  (⟨o.topic, r.1⟩, r.2.1, r.2.2)

/-- `Observer.removeEvents` (`topic.go`): with an empty input set the whole
events slice is removed; otherwise registrations whose tag is contained in
the input are moved to `removed` and the rest are kept, preserving order.
Returns the updated observer and the removed registrations. -/
def Observer.removeEvents (o : Observer) (es : List Nat) :
    Observer × List Reg :=
  if es = [] then ({ o with events := [] }, o.events)
  else ({ o with events := o.events.filter (fun e => !es.contains e.tag) },
        o.events.filter (fun e => es.contains e.tag))

/-- `Observer.Distpatch` (`topic.go`): dispatch, then remove the newly
fired once-registrations (if any), then schedule `onStop` for the removed
registrations (if any). -/
def Observer.Distpatch (o : Observer) (data : List α) :
    Observer × List (Call α) × List Stop :=
  let d := o.dispatch data
  let pr := if d.2.1 = [] then (d.1, ([] : List Reg))
            else d.1.removeEvents d.2.1
  let stops := if pr.2 = [] then ([] : List Stop)
               else pr.2.map (fun e => Stop.mk e.tag o.topic)
  (pr.1, d.2.2, stops)

/-- `Observer.Count` (`topic.go`). -/
def Observer.Count (o : Observer) : Nat := o.events.length

/-- `Observer.addEvent` (`topic.go`): append a fresh registration. -/
def Observer.addEvent (o : Observer) (tag : Nat) (isUnique : Bool) :
    Observer :=
  { o with events := o.events ++ [⟨tag, isUnique, false⟩] }

/-- First-match lookup in the association-list model of the concurrent
topic map (`cmap.Get`). -/
def mapGet (m : List (String × Observer)) (k : String) : Option Observer :=
  match m with
  | [] => none
  | p :: rest => if p.1 = k then some p.2 else mapGet rest k

/-- `cmap.Upsert`: replace the value of the existing entry, or append a
fresh entry built from `f none`. -/
def mapUpsert (m : List (String × Observer)) (k : String)
    (f : Option Observer → Observer) : List (String × Observer) :=
  match m with
  | [] => [(k, f none)]
  | p :: rest =>
    if p.1 = k then (k, f (some p.2)) :: rest else p :: mapUpsert rest k f

/-- Overwrite the value stored at an existing key (the in-place pointer
mutation performed by callbacks under `cmap.GetCb` / `cmap.RemoveCb`). -/
def mapSet (m : List (String × Observer)) (k : String) (v : Observer) :
    List (String × Observer) :=
  match m with
  | [] => []
  | p :: rest => if p.1 = k then (k, v) :: rest else p :: mapSet rest k v

/-- Delete the entry at a key (`cmap.Remove`). -/
def mapRemove (m : List (String × Observer)) (k : String) :
    List (String × Observer) :=
  match m with
  | [] => []
  | p :: rest => if p.1 = k then rest else p :: mapRemove rest k

/-- The bus (`Bus[T]` in `bus.go`), with the wildcard-delivery toggle and
the topic map, extended with the accumulated invocation and stop traces
(oldest first). -/
structure Bus (α : Type) where
  allowAsterisk : Bool
  topics : List (String × Observer)
  calls : List (Call α)
  stops : List Stop
  deriving Repr, DecidableEq

/-- `New` (`bus.go`): fresh bus, wildcard delivery disabled. -/
def New (α : Type) : Bus α :=
  { allowAsterisk := false, topics := [], calls := [], stops := [] }

/-- `Bus.AllowAsterisk` (`bus.go`). -/
def Bus.AllowAsterisk (b : Bus α) : Bus α := { b with allowAsterisk := true }

/-- `Bus.addEvent` (`bus.go`): upsert the topic's observer (creating an
empty one when absent) and append the new registration. -/
def Bus.addEvent (b : Bus α) (topic : String) (isUnique : Bool) (tag : Nat) :
    Bus α :=
  { b with topics := mapUpsert b.topics topic (fun old =>
      (old.getD ⟨topic, []⟩).addEvent tag isUnique) }

/-- `Bus.On` (`bus.go`). -/
def Bus.On (b : Bus α) (topic : String) (tag : Nat) : Bus α :=
  b.addEvent topic false tag

/-- `Bus.Once` (`bus.go`). -/
def Bus.Once (b : Bus α) (topic : String) (tag : Nat) : Bus α :=
  b.addEvent topic true tag

/-- `Bus.removeEvents` (`bus.go`): under `cmap.RemoveCb`, remove the
matching registrations from the bucket, delete the topic entry iff the
bucket is empty afterwards, then schedule `onStop` for whatever was
removed. -/
def Bus.removeEvents (b : Bus α) (topic : String) (vs : List Nat) : Bus α :=
  match mapGet b.topics topic with
  | none => b
  | some ob =>
    let pr := ob.removeEvents vs
    let topics :=
      if pr.1.events.length = 0 then mapRemove b.topics topic
      else mapSet b.topics topic pr.1
    let stops :=
      if pr.2 = [] then b.stops
      else b.stops ++ pr.2.map (fun e => Stop.mk e.tag topic)
    { b with topics := topics, stops := stops }

/-- `Bus.Off` (`bus.go`): handlers are passed by identity token. -/
def Bus.Off (b : Bus α) (topic : String) (es : List Nat) : Bus α :=
  b.removeEvents topic es

/-- One `cmap.GetCb` phase of `Bus.dispatch` (`bus.go`): if the topic has a
bucket, run `Observer.Distpatch` on it (the bucket is mutated in place and
the map structure is untouched) and record the effects. -/
def Bus.dispatchTopic (b : Bus α) (topic : String) (data : List α) : Bus α :=
  match mapGet b.topics topic with
  | none => b
  | some ob =>
    let r := ob.Distpatch data
    { b with topics := mapSet b.topics topic r.1,
             calls := b.calls ++ r.2.1,
             stops := b.stops ++ r.2.2 }

/-- `Bus.dispatch` (`bus.go`): deliver to the named topic's bucket, then —
iff the wildcard toggle is on and the topic is not itself the wildcard —
also to the wildcard bucket. -/
def Bus.dispatch (b : Bus α) (topic : String) (data : List α) : Bus α :=
  let b1 := b.dispatchTopic topic data
  if b.allowAsterisk = true ∧ topic ≠ ALL then b1.dispatchTopic ALL data
  else b1

/-- `Bus.Trigger` (`bus.go`). -/
def Bus.Trigger (b : Bus α) (topic : String) (msg : List α) : Bus α :=
  b.dispatch topic msg

/-- The `cmap.IterCb` loop of `Bus.broadcast` (`bus.go`): dispatch every
bucket in iteration order, collecting the effects. -/
def broadcastList (data : List α) :
    List (String × Observer) →
    List (String × Observer) × List (Call α) × List Stop
  | [] => ([], [], [])
  | p :: rest =>
    let d := p.2.Distpatch data
    let r := broadcastList data rest
    ((p.1, d.1) :: r.1, d.2.1 ++ r.2.1, d.2.2 ++ r.2.2)

/-- `Bus.broadcast` (`bus.go`). -/
def Bus.broadcast (b : Bus α) (data : List α) : Bus α :=
  let r := broadcastList data b.topics
  { b with topics := r.1, calls := b.calls ++ r.2.1,
           stops := b.stops ++ r.2.2 }

/-- `Bus.Broadcast` (`bus.go`). -/
def Bus.Broadcast (b : Bus α) (msg : List α) : Bus α := b.broadcast msg

/-- `Bus.Count` (`bus.go`): `0` when the topic has no bucket. -/
def Bus.Count (b : Bus α) (topic : String) : Nat :=
  match mapGet b.topics topic with
  | none => 0
  | some ob => ob.Count

/-- `Bus.OffCb` (the `OffCb` implementation defined over this bus): read
the topic's pre-removal count and existence, perform `Off`, then invoke the
callback with the captured pair.  The callback observation is returned. -/
def Bus.OffCb (b : Bus α) (topic : String) (es : List Nat) :
    Bus α × Nat × Bool :=
  let info : Nat × Bool :=
    match mapGet b.topics topic with
    | some ob => (ob.Count, true)
    | none => (0, false)
  (b.Off topic es, info)

/-- Iterated `Trigger` on one topic with a list of payload batches. -/
def runTriggers (b : Bus α) (topic : String) : List (List α) → Bus α
  | [] => b
  | d :: ds => runTriggers (b.Trigger topic d) topic ds

/-- The invocation trace one `Observer.Distpatch` produces: every eligible
registration, in bucket (insertion) order. -/
def eligCalls (ob : Observer) (data : List α) : List (Call α) :=
  (ob.events.filter Reg.fires).map (fun e => Call.mk e.tag ob.topic data)

/-- The invocation trace one dispatch phase contributes for an optional
bucket. -/
def obCalls (o : Option Observer) (data : List α) : List (Call α) :=
  match o with
  | none => []
  | some ob => eligCalls ob data

/-- The topic map never holds an entry whose bucket is empty. -/
def NoEmpty (m : List (String × Observer)) : Prop :=
  ∀ p ∈ m, p.2.events ≠ []

/-- The topic map has pairwise distinct keys. -/
def NodupKeys (m : List (String × Observer)) : Prop :=
  (m.map Prod.fst).Nodup

/-- Every bucket is stored under its own topic name. -/
def KeyedByTopic (m : List (String × Observer)) : Prop :=
  ∀ p ∈ m, p.2.topic = p.1

theorem mapGet_upsert_self (m : List (String × Observer)) (k : String)
    (f : Option Observer → Observer) :
    mapGet (mapUpsert m k f) k = some (f (mapGet m k)) := by
  induction m with
  | nil => simp [mapGet, mapUpsert]
  | cons p rest ih =>
    by_cases h : p.1 = k
    · simp [mapGet, mapUpsert, h]
    · simp [mapGet, mapUpsert, h, ih]

theorem mapGet_upsert_ne (m : List (String × Observer)) (k k' : String)
    (f : Option Observer → Observer) (h : k' ≠ k) :
    mapGet (mapUpsert m k f) k' = mapGet m k' := by
  have h2 : k ≠ k' := fun hh => h hh.symm
  induction m with
  | nil => simp [mapGet, mapUpsert, h2]
  | cons p rest ih =>
    by_cases hp : p.1 = k
    · have hp' : p.1 ≠ k' := by rw [hp]; exact h2
      simp [mapGet, mapUpsert, hp, hp', h2]
    · by_cases hp' : p.1 = k' <;>
        simp [mapGet, mapUpsert, hp, hp', h, h2, ih]

theorem mapGet_set_self (m : List (String × Observer)) (k : String)
    (v ob : Observer) (h : mapGet m k = some ob) :
    mapGet (mapSet m k v) k = some v := by
  induction m with
  | nil => simp [mapGet] at h
  | cons p rest ih =>
    by_cases hp : p.1 = k
    · simp [mapGet, mapSet, hp]
    · simp [mapGet, hp] at h
      simp [mapGet, mapSet, hp, ih h]

theorem mapGet_set_ne (m : List (String × Observer)) (k k' : String)
    (v : Observer) (h : k' ≠ k) :
    mapGet (mapSet m k v) k' = mapGet m k' := by
  have h2 : k ≠ k' := fun hh => h hh.symm
  induction m with
  | nil => simp [mapGet, mapSet]
  | cons p rest ih =>
    by_cases hp : p.1 = k
    · have hp' : p.1 ≠ k' := by rw [hp]; exact h2
      simp [mapGet, mapSet, hp, hp', h2]
    · by_cases hp' : p.1 = k' <;>
        simp [mapGet, mapSet, hp, hp', h, h2, ih]

theorem mapSet_eq_self (m : List (String × Observer)) (k : String)
    (v : Observer) (h : mapGet m k = some v) : mapSet m k v = m := by
  induction m with
  | nil => simp [mapGet] at h
  | cons p rest ih =>
    by_cases hp : p.1 = k
    · simp only [mapGet, if_pos hp] at h
      have hv : p.2 = v := by injection h
      have hpv : (k, v) = p := by rw [← hp, ← hv]
      simp only [mapSet, if_pos hp, hpv]
    · simp only [mapGet, if_neg hp] at h
      simp only [mapSet, if_neg hp]
      rw [ih h]

theorem mapGet_remove_ne (m : List (String × Observer)) (k k' : String)
    (h : k' ≠ k) : mapGet (mapRemove m k) k' = mapGet m k' := by
  have h2 : k ≠ k' := fun hh => h hh.symm
  induction m with
  | nil => simp [mapGet, mapRemove]
  | cons p rest ih =>
    by_cases hp : p.1 = k
    · have hp' : p.1 ≠ k' := by rw [hp]; exact h2
      simp [mapGet, mapRemove, hp, hp', h2]
    · by_cases hp' : p.1 = k' <;>
        simp [mapGet, mapRemove, hp, hp', h, h2, ih]

theorem mapGet_none_of_not_mem (m : List (String × Observer)) (k : String)
    (h : k ∉ m.map Prod.fst) : mapGet m k = none := by
  induction m with
  | nil => simp [mapGet]
  | cons p rest ih =>
    simp only [List.map_cons, List.mem_cons] at h
    push_neg at h
    have hp : p.1 ≠ k := fun hh => h.1 hh.symm
    simp [mapGet, hp, ih h.2]

theorem mapGet_remove_self (m : List (String × Observer)) (k : String)
    (h : NodupKeys m) : mapGet (mapRemove m k) k = none := by
  induction m with
  | nil => simp [mapGet, mapRemove]
  | cons p rest ih =>
    have hsplit : p.1 ∉ rest.map Prod.fst ∧ (rest.map Prod.fst).Nodup := by
      have h2 := h
      simp only [NodupKeys, List.map_cons, List.nodup_cons] at h2
      exact h2
    have hnd : NodupKeys rest := hsplit.2
    by_cases hp : p.1 = k
    · have hk : k ∉ rest.map Prod.fst := hp ▸ hsplit.1
      simp [mapRemove, hp, mapGet_none_of_not_mem rest k hk]
    · simp [mapRemove, hp, mapGet, ih hnd]

theorem mem_mapSet (m : List (String × Observer)) (k : String)
    (v : Observer) (p : String × Observer) (hp : p ∈ mapSet m k v) :
    p ∈ m ∨ p = (k, v) := by
  induction m with
  | nil => simp [mapSet] at hp
  | cons q rest ih =>
    by_cases hq : q.1 = k
    · simp [mapSet, hq] at hp
      rcases hp with hp | hp
      · right; simp [hp]
      · left; simp [hp]
    · simp [mapSet, hq] at hp
      rcases hp with hp | hp
      · left; simp [hp]
      · rcases ih hp with h | h
        · left; simp [h]
        · right; exact h

theorem mem_mapRemove (m : List (String × Observer)) (k : String)
    (p : String × Observer) (hp : p ∈ mapRemove m k) : p ∈ m := by
  induction m with
  | nil => simp [mapRemove] at hp
  | cons q rest ih =>
    by_cases hq : q.1 = k
    · simp [mapRemove, hq] at hp
      simp [hp]
    · simp [mapRemove, hq] at hp
      rcases hp with hp | hp
      · simp [hp]
      · simp [ih hp]

theorem mem_mapUpsert (m : List (String × Observer)) (k : String)
    (f : Option Observer → Observer) (p : String × Observer)
    (hp : p ∈ mapUpsert m k f) :
    p ∈ m ∨ p = (k, f (mapGet m k)) := by
  induction m with
  | nil => simp [mapUpsert, mapGet] at hp ⊢; exact hp
  | cons q rest ih =>
    by_cases hq : q.1 = k
    · simp [mapUpsert, mapGet, hq] at hp ⊢
      rcases hp with hp | hp
      · right; exact hp
      · left; right; exact hp
    · simp [mapUpsert, mapGet, hq] at hp ⊢
      rcases hp with hp | hp
      · left; left; exact hp
      · rcases ih hp with h | h
        · left; right; exact h
        · right; exact h

theorem dispatchList_fst (t : String) (d : List α) (l : List Reg) :
    (dispatchList t d l).1 = l.map Reg.fireFlag := by
  induction l with
  | nil => simp [dispatchList]
  | cons e rest ih =>
    cases hu : e.isUnique <;> cases hc : e.hasCalled <;>
      simp [dispatchList, Reg.fireFlag, Reg.willFire, hu, hc, ih]

theorem dispatchList_removes (t : String) (d : List α) (l : List Reg) :
    (dispatchList t d l).2.1 = (l.filter Reg.willFire).map Reg.tag := by
  induction l with
  | nil => simp [dispatchList]
  | cons e rest ih =>
    cases hu : e.isUnique <;> cases hc : e.hasCalled <;>
      simp [dispatchList, Reg.willFire, hu, hc, ih]

theorem dispatchList_calls (t : String) (d : List α) (l : List Reg) :
    (dispatchList t d l).2.2
      = (l.filter Reg.fires).map (fun e => Call.mk e.tag t d) := by
  induction l with
  | nil => simp [dispatchList]
  | cons e rest ih =>
    cases hu : e.isUnique <;> cases hc : e.hasCalled <;>
      simp [dispatchList, Reg.fires, hu, hc, ih]

theorem Distpatch_calls (o : Observer) (d : List α) :
    (o.Distpatch d).2.1 = eligCalls o d := by
  simp [Observer.Distpatch, Observer.dispatch, dispatchList_calls, eligCalls]

theorem Distpatch_topic (o : Observer) (d : List α) :
    (o.Distpatch d).1.topic = o.topic := by
  simp only [Observer.Distpatch, Observer.dispatch]
  by_cases h : (dispatchList o.topic d o.events).2.1 = [] <;>
    simp [h, Observer.removeEvents]

theorem Distpatch_persistent (o : Observer) (d : List α)
    (h : ∀ e ∈ o.events, e.isUnique = false) :
    o.Distpatch d = (o, eligCalls o d, []) := by
  have hff : o.events.map Reg.fireFlag = o.events := by
    have : ∀ e ∈ o.events, Reg.fireFlag e = e := by
      intro e he
      simp [Reg.fireFlag, Reg.willFire, h e he]
    calc o.events.map Reg.fireFlag = o.events.map id :=
          List.map_congr_left this
      _ = o.events := List.map_id o.events
  have hwf : o.events.filter Reg.willFire = [] := by
    rw [List.filter_eq_nil_iff]
    intro e he
    simp [Reg.willFire, h e he]
  simp [Observer.Distpatch, Observer.dispatch, dispatchList_fst,
    dispatchList_removes, dispatchList_calls, hff, hwf, eligCalls]

theorem Distpatch_empty (o : Observer) (d : List α) (h : o.events = []) :
    o.Distpatch d = (o, [], []) := by
  cases o with
  | mk t evs =>
    simp only at h
    subst h
    simp [Observer.Distpatch, Observer.dispatch, dispatchList]

theorem Distpatch_fired_absent (o : Observer) (d : List α) (e : Reg)
    (he : e ∈ o.events) (hf : e.willFire = true) :
    ∀ e2 ∈ (o.Distpatch d).1.events, e2.tag ≠ e.tag := by
  intro e2 he2
  have hmem : e ∈ o.events.filter Reg.willFire := by
    simp [List.mem_filter, he, hf]
  have hremne : (dispatchList o.topic d o.events).2.1 ≠ [] := by
    rw [dispatchList_removes]
    intro hnil
    rcases List.map_eq_nil_iff.mp hnil with hnil2
    rw [hnil2] at hmem
    simp at hmem
  have htag : e.tag ∈ (dispatchList o.topic d o.events).2.1 := by
    rw [dispatchList_removes]
    exact List.mem_map_of_mem Reg.tag hmem
  simp only [Observer.Distpatch, Observer.dispatch] at he2
  simp only [hremne, if_neg, Observer.removeEvents] at he2
  by_cases hcase : (dispatchList o.topic d o.events).2.1 = []
  · exact absurd hcase hremne
  · simp only [hcase, if_neg, not_false_iff, dispatchList_fst] at he2
    simp only [List.mem_filter] at he2
    intro heq
    have hc := he2.2
    rw [heq] at hc
    simp only [Bool.not_eq_true'] at hc
    have hct : (dispatchList o.topic d o.events).2.1.contains e.tag = true := by
      simpa using htag
    rw [hct] at hc
    cases hc

theorem dispatchTopic_none (b : Bus α) (T : String) (d : List α)
    (h : mapGet b.topics T = none) : b.dispatchTopic T d = b := by
  simp [Bus.dispatchTopic, h]

theorem dispatchTopic_calls (b : Bus α) (T : String) (d : List α) :
    (b.dispatchTopic T d).calls = b.calls ++ obCalls (mapGet b.topics T) d := by
  cases h : mapGet b.topics T with
  | none => simp [Bus.dispatchTopic, h, obCalls]
  | some ob => simp [Bus.dispatchTopic, h, obCalls, Distpatch_calls]

theorem dispatchTopic_allow (b : Bus α) (T : String) (d : List α) :
    (b.dispatchTopic T d).allowAsterisk = b.allowAsterisk := by
  cases h : mapGet b.topics T with
  | none => simp [Bus.dispatchTopic, h]
  | some ob => simp [Bus.dispatchTopic, h]

theorem dispatchTopic_topics_ne (b : Bus α) (T T' : String) (d : List α)
    (h : T' ≠ T) :
    mapGet (b.dispatchTopic T d).topics T' = mapGet b.topics T' := by
  cases hg : mapGet b.topics T with
  | none => simp [Bus.dispatchTopic, hg]
  | some ob => simp [Bus.dispatchTopic, hg, mapGet_set_ne _ _ _ _ h]

theorem trigger_calls_disabled (b : Bus α) (T : String) (d : List α)
    (h : b.allowAsterisk = false) :
    (b.Trigger T d).calls = b.calls ++ obCalls (mapGet b.topics T) d := by
  simp [Bus.Trigger, Bus.dispatch, h, dispatchTopic_calls]

theorem trigger_calls_enabled (b : Bus α) (T : String) (d : List α)
    (h : b.allowAsterisk = true) (hT : T ≠ ALL) :
    (b.Trigger T d).calls
      = b.calls ++ obCalls (mapGet b.topics T) d
          ++ obCalls (mapGet b.topics ALL) d := by
  have hall : mapGet (b.dispatchTopic T d).topics ALL = mapGet b.topics ALL :=
    dispatchTopic_topics_ne b T ALL d (fun hh => hT hh.symm)
  simp [Bus.Trigger, Bus.dispatch, h, hT, dispatchTopic_calls, hall,
    List.append_assoc]

theorem mapGet_mem (m : List (String × Observer)) (k : String) (v : Observer)
    (h : mapGet m k = some v) : (k, v) ∈ m := by
  induction m with
  | nil => simp [mapGet] at h
  | cons p rest ih =>
    by_cases hp : p.1 = k
    · simp only [mapGet, if_pos hp] at h
      have hv : p.2 = v := by injection h
      have : (k, v) = p := by rw [← hp, ← hv]
      simp [this]
    · simp only [mapGet, if_neg hp] at h
      simp [ih h]

theorem trigger_on_single_persistent (T : String) (tg : Nat)
    (cs : List (Call α)) (ss : List Stop) (d : List α) :
    (Bus.Trigger ⟨false, [(T, ⟨T, [⟨tg, false, false⟩]⟩)], cs, ss⟩ T d)
      = ⟨false, [(T, ⟨T, [⟨tg, false, false⟩]⟩)], cs ++ [⟨tg, T, d⟩], ss⟩ := by
  simp [Bus.Trigger, Bus.dispatch, Bus.dispatchTopic, mapGet, mapSet,
    Observer.Distpatch, Observer.dispatch, dispatchList]

theorem runTriggers_single_persistent (T : String) (tg : Nat)
    (cs : List (Call α)) (ss : List Stop) (ds : List (List α)) :
    runTriggers (⟨false, [(T, ⟨T, [⟨tg, false, false⟩]⟩)], cs, ss⟩ : Bus α) T ds
      = ⟨false, [(T, ⟨T, [⟨tg, false, false⟩]⟩)],
          cs ++ ds.map (fun d => ⟨tg, T, d⟩), ss⟩ := by
  induction ds generalizing cs with
  | nil => simp [runTriggers]
  | cons d ds ih =>
    rw [runTriggers, trigger_on_single_persistent, ih]
    simp

theorem trigger_empty_bucket (T : String) (cs : List (Call α))
    (ss : List Stop) (d : List α) :
    (Bus.Trigger ⟨false, [(T, ⟨T, []⟩)], cs, ss⟩ T d)
      = ⟨false, [(T, ⟨T, []⟩)], cs, ss⟩ := by
  simp [Bus.Trigger, Bus.dispatch, Bus.dispatchTopic, mapGet, mapSet,
    Observer.Distpatch, Observer.dispatch, dispatchList]

theorem runTriggers_empty_bucket (T : String) (cs : List (Call α))
    (ss : List Stop) (ds : List (List α)) :
    runTriggers (⟨false, [(T, ⟨T, []⟩)], cs, ss⟩ : Bus α) T ds
      = ⟨false, [(T, ⟨T, []⟩)], cs, ss⟩ := by
  induction ds with
  | nil => simp [runTriggers]
  | cons d ds ih => rw [runTriggers, trigger_empty_bucket, ih]

theorem once_fresh_bus (T : String) (tg : Nat) :
    (New α).Once T tg = ⟨false, [(T, ⟨T, [⟨tg, true, false⟩]⟩)], [], []⟩ := by
  simp [New, Bus.Once, Bus.addEvent, mapUpsert, Observer.addEvent]

theorem trigger_once_fires (T : String) (tg : Nat) (d : List α) :
    (Bus.Trigger ⟨false, [(T, ⟨T, [⟨tg, true, false⟩]⟩)], [], []⟩ T d)
      = ⟨false, [(T, ⟨T, []⟩)], [⟨tg, T, d⟩], [⟨tg, T⟩]⟩ := by
  simp [Bus.Trigger, Bus.dispatch, Bus.dispatchTopic, mapGet, mapSet,
    Observer.Distpatch, Observer.dispatch, dispatchList,
    Observer.removeEvents, List.contains, List.elem]

/-- C1: after `SubscribeOnce(T, H)` followed by `K ≥ 1` Dispatch calls to
`T` (the first with payload `d`, then arbitrarily many more), `H` is
invoked exactly once (on the first dispatch), its `OnStop` is scheduled
exactly once with topic `T`, and `Count(T)` is `0` afterwards. -/
theorem claim_C1 (T : String) (tg : Nat) (d : List α) (ds : List (List α)) :
    (runTriggers ((New α).Once T tg) T (d :: ds)).calls = [⟨tg, T, d⟩]
    ∧ (runTriggers ((New α).Once T tg) T (d :: ds)).stops = [⟨tg, T⟩]
    ∧ (runTriggers ((New α).Once T tg) T (d :: ds)).Count T = 0 := by
  rw [once_fresh_bus, runTriggers, trigger_once_fires,
    runTriggers_empty_bucket]
  simp [Bus.Count, mapGet, Observer.Count]

/-- C5: a persistent handler subscribed once via `On(T, H)` is invoked
exactly `N` times by `N` Dispatch calls to `T` (one invocation per call,
in dispatch order, with `Count(T)` staying `1`); moreover, within any one
dispatch of a bucket the eligible registrations are invoked exactly in
the order of the bucket's events list, and subscription appends to the
end of that list, so per-dispatch invocation order is insertion order. -/
theorem claim_C5 (T : String) (tg : Nat) (ds : List (List α)) :
    ((runTriggers ((New α).On T tg) T ds).calls
        = ds.map (fun d => Call.mk tg T d))
    ∧ (runTriggers ((New α).On T tg) T ds).Count T = 1
    ∧ (∀ (ob : Observer) (d : List α),
        (ob.Distpatch d).2.1
          = (ob.events.filter Reg.fires).map (fun e => Call.mk e.tag ob.topic d))
    ∧ (∀ (b : Bus α) (u : Bool) (ob : Observer),
        mapGet b.topics T = some ob →
        mapGet ((b.addEvent T u tg)).topics T
          = some { ob with events := ob.events ++ [⟨tg, u, false⟩] }) := by
  have hsub : (New α).On T tg
      = ⟨false, [(T, ⟨T, [⟨tg, false, false⟩]⟩)], [], []⟩ := by
    simp [New, Bus.On, Bus.addEvent, mapUpsert, Observer.addEvent]
  refine ⟨?_, ?_, ?_, ?_⟩
  · rw [hsub, runTriggers_single_persistent]
    simp
  · rw [hsub, runTriggers_single_persistent]
    simp [Bus.Count, mapGet, Observer.Count]
  · intro ob d
    rw [Distpatch_calls]
    simp [eligCalls]
  · intro b u ob hg
    rw [Bus.addEvent, mapGet_upsert_self, hg]
    simp [Observer.addEvent]

/-- C5 witness at a concrete bus. -/
theorem claim_C5_witness :
    mapGet ((((New Nat).On "t" 9).addEvent "t" true 9)).topics "t"
      = some ⟨"t", [⟨9, false, false⟩, ⟨9, true, false⟩]⟩ := by
  have h := (claim_C5 (α := Nat) "t" 9 []).2.2.2 ((New Nat).On "t" 9) true
    ⟨"t", [⟨9, false, false⟩]⟩ (by decide)
  rw [h]
  rfl

/-- C7: with two distinct handlers `H1`, `H2` subscribed to `T` on a fresh
bus, `Off(T, H1)` leaves exactly `H2`'s registration (`Count(T) = 1`), and
every subsequent Dispatch to `T` invokes `H2` and never `H1`. -/
theorem claim_C7 (T : String) (h1 h2 : Nat) (ds : List (List α))
    (hne : h1 ≠ h2) :
    ((((New α).On T h1).On T h2).Off T [h1]).Count T = 1
    ∧ mapGet ((((New α).On T h1).On T h2).Off T [h1]).topics T
        = some ⟨T, [⟨h2, false, false⟩]⟩
    ∧ (runTriggers ((((New α).On T h1).On T h2).Off T [h1]) T ds).calls
        = ds.map (fun d => Call.mk h2 T d) := by
  have hne2 : (h2 == h1) = false := by
    simp
    exact fun hh => hne hh.symm
  have hoff : (((New α).On T h1).On T h2).Off T [h1]
      = ⟨false, [(T, ⟨T, [⟨h2, false, false⟩]⟩)], [], [⟨h1, T⟩]⟩ := by
    simp [New, Bus.On, Bus.addEvent, mapUpsert, Observer.addEvent, Bus.Off,
      Bus.removeEvents, mapGet, mapSet, mapRemove, Observer.removeEvents,
      List.contains, List.elem, hne2]
  rw [hoff, runTriggers_single_persistent]
  simp [Bus.Count, mapGet, Observer.Count]

/-- C7 witness at a concrete input. -/
theorem claim_C7_witness :
    ((((New Nat).On "t" 1).On "t" 2).Off "t" [1]).Count "t" = 1
    ∧ (runTriggers ((((New Nat).On "t" 1).On "t" 2).Off "t" [1]) "t"
        [[5]]).calls = [⟨2, "t", [5]⟩] := by
  have h := claim_C7 (α := Nat) "t" 1 2 [[5]] (by decide)
  exact ⟨h.1, h.2.2⟩

/-- C2 counterexample: after `SubscribeOnce("a", H)` and one Dispatch to
`"a"`, the fired once-registration is pruned from the bucket but the topic
entry itself stays in the map with an empty bucket — the claimed invariant
fails on a state reachable by `SubscribeOnce` then `Dispatch`. -/
theorem claim_C2_cex :
    (((New Nat).Once "a" 1).Trigger "a" [0]).topics = [("a", ⟨"a", []⟩)]
    ∧ ((((New Nat).Once "a" 1).Trigger "a" [0]).topics.any
        (fun p => p.2.events.isEmpty)) = true := by
  exact ⟨by decide, by decide⟩

/-- C2 amended: `Subscribe`/`SubscribeOnce` (addEvent) and `Unsubscribe`
(removeEvents) preserve the no-empty-bucket invariant — in particular an
explicit unsubscribe that empties a bucket also removes the topic entry —
but dispatch-pruning of a fired once-registration does not remove the
emptied topic entry (the counterexample above). -/
theorem claim_C2_amended (b : Bus α) (T : String) :
    (∀ (u : Bool) (tg : Nat),
      NoEmpty b.topics → NoEmpty ((b.addEvent T u tg).topics))
    ∧ (∀ vs : List Nat,
      NoEmpty b.topics → NoEmpty ((b.removeEvents T vs).topics)) := by
  constructor
  · intro u tg hne p hp
    rcases mem_mapUpsert b.topics T _ p hp with hmem | heq
    · exact hne p hmem
    · rw [heq]
      cases hg : mapGet b.topics T <;>
        simp [hg, Observer.addEvent, Option.getD]
  · intro vs hne p hp
    rw [Bus.removeEvents] at hp
    cases hg : mapGet b.topics T with
    | none => rw [hg] at hp; exact hne p hp
    | some ob =>
      rw [hg] at hp
      simp only at hp
      by_cases hlen : ((ob.removeEvents vs).1).events.length = 0
      · rw [if_pos hlen] at hp
        exact hne p (mem_mapRemove b.topics T p hp)
      · rw [if_neg hlen] at hp
        rcases mem_mapSet b.topics T _ p hp with hmem | heq
        · exact hne p hmem
        · rw [heq]
          simp only
          intro hnil
          exact hlen (by rw [hnil]; rfl)

/-- C2 amended witness at a concrete bus. -/
theorem claim_C2_amended_witness :
    NoEmpty (((((New Nat).On "a" 1).On "b" 2).removeEvents "b" []).topics) := by
  have h := (claim_C2_amended (((New Nat).On "a" 1).On "b" 2) "b").2 []
  refine h ?_
  intro p hp
  simp [New, Bus.On, Bus.addEvent, mapUpsert, Observer.addEvent] at hp
  rcases hp with hp | hp <;> simp [hp]

/-- C3: with the wildcard toggle disabled (the default), `Trigger(T, d)`
delivers only to `T`'s bucket (in particular `Trigger("*")` still delivers
to the `"*"` bucket and a non-wildcard Trigger never reaches it); with the
toggle enabled, `Trigger(T, d)` for `T ≠ "*"` additionally delivers the
same payloads to the `"*"` bucket. -/
theorem claim_C3 (b : Bus α) (T : String) (d : List α) :
    (b.allowAsterisk = false →
      (b.Trigger T d).calls = b.calls ++ obCalls (mapGet b.topics T) d)
    ∧ (b.allowAsterisk = true → T ≠ ALL →
      (b.Trigger T d).calls
        = b.calls ++ obCalls (mapGet b.topics T) d
            ++ obCalls (mapGet b.topics ALL) d) :=
  ⟨trigger_calls_disabled b T d, trigger_calls_enabled b T d⟩

/-- C3 witness at concrete buses (toggle off and toggle on). -/
theorem claim_C3_witness :
    (((((New Nat).On "*" 2).On "a" 1).Trigger "a" [5]).calls
        = [] ++ obCalls (mapGet (((New Nat).On "*" 2).On "a" 1).topics "a") [5])
    ∧ ((((((New Nat).AllowAsterisk).On "*" 2).On "a" 1).Trigger "a" [5]).calls
        = [] ++ obCalls (mapGet ((((New Nat).AllowAsterisk).On "*" 2).On "a" 1).topics "a") [5]
            ++ obCalls (mapGet ((((New Nat).AllowAsterisk).On "*" 2).On "a" 1).topics ALL) [5]) :=
  ⟨(claim_C3 (((New Nat).On "*" 2).On "a" 1) "a" [5]).1 rfl,
   (claim_C3 ((((New Nat).AllowAsterisk).On "*" 2).On "a" 1) "a" [5]).2 rfl
     (by decide)⟩

/-- C4: `OffCb(T, cb, handlers...)` performs exactly the removal `Off`
performs, and the callback observes the number of registrations that
existed on `T` before the removal took effect (`Count(T)` of the pre-state)
together with whether the topic entry existed. -/
theorem claim_C4 (b : Bus α) (T : String) (es : List Nat) :
    (b.OffCb T es).1 = b.Off T es
    ∧ (b.OffCb T es).2.1 = b.Count T
    ∧ (b.OffCb T es).2.2 = (mapGet b.topics T).isSome := by
  refine ⟨rfl, ?_, ?_⟩ <;>
    cases h : mapGet b.topics T <;> simp [Bus.OffCb, Bus.Count, h]

/-- C6 counterexample: with wildcard delivery enabled and a handler on the
`"*"` bucket, after the topic-wide clear `Off("a")` a Dispatch to `"a"`
still invokes a handler (the wildcard one), so "a subsequent Dispatch to T
invokes no handler" fails as stated. -/
theorem claim_C6_cex :
    ((((((New Nat).AllowAsterisk).On "*" 1).On "a" 2).Off "a" []).Count "a"
        = 0)
    ∧ ((((((New Nat).AllowAsterisk).On "*" 1).On "a" 2).Off "a" []).Trigger
        "a" [5]).calls = [⟨1, "*", [5]⟩] :=
  ⟨by decide, by decide⟩

/-- C6 amended: `Off(T)` with no handlers removes `T`'s entry, leaves
`Count(T) = 0`, and schedules `OnStop` for every registration that was
present; a subsequent Dispatch to `T` delivers no `(T, ·)` invocation to
any handler — though, when wildcard delivery is enabled, handlers of the
`"*"` bucket may still be invoked (receiving topic `"*"`). -/
theorem claim_C6_amended (b : Bus α) (T : String) (ob : Observer)
    (hg : mapGet b.topics T = some ob) (hnd : NodupKeys b.topics)
    (hkt : KeyedByTopic b.topics) :
    mapGet ((b.Off T []).topics) T = none
    ∧ (b.Off T []).Count T = 0
    ∧ (b.Off T []).stops = b.stops ++ ob.events.map (fun e => Stop.mk e.tag T)
    ∧ ∀ (d : List α) (c : Call α),
        c ∈ ((b.Off T []).Trigger T d).calls →
        c ∈ (b.Off T []).calls ∨ c.topic ≠ T := by
  have hb' : b.Off T []
      = { b with topics := mapRemove b.topics T,
                 stops := b.stops ++ ob.events.map (fun e => Stop.mk e.tag T) } := by
    by_cases hev : ob.events = [] <;>
      simp [Bus.Off, Bus.removeEvents, hg, Observer.removeEvents, hev]
  have hTnone : mapGet ((b.Off T []).topics) T = none := by
    rw [hb']
    exact mapGet_remove_self b.topics T hnd
  refine ⟨hTnone, ?_, ?_, ?_⟩
  · simp [Bus.Count, hTnone]
  · rw [hb']
  · intro d c hc
    rw [Bus.Trigger, Bus.dispatch, dispatchTopic_none _ _ _ hTnone] at hc
    by_cases hcond : (b.Off T []).allowAsterisk = true ∧ T ≠ ALL
    · rw [if_pos hcond] at hc
      cases hgA : mapGet ((b.Off T []).topics) ALL with
      | none =>
        rw [dispatchTopic_none _ _ _ hgA] at hc
        exact Or.inl hc
      | some obA =>
        have hcalls := dispatchTopic_calls (b.Off T []) ALL d
        rw [hgA] at hcalls
        rw [hcalls] at hc
        rcases List.mem_append.mp hc with h | h
        · exact Or.inl h
        · right
          simp only [obCalls, eligCalls, List.mem_map] at h
          obtain ⟨e, _, hce⟩ := h
          have hmemA : (ALL, obA) ∈ (b.Off T []).topics :=
            mapGet_mem _ _ _ hgA
          have hmemB : (ALL, obA) ∈ b.topics := by
            rw [hb'] at hmemA
            exact mem_mapRemove b.topics T _ hmemA
          have htopA : obA.topic = ALL := hkt _ hmemB
          rw [← hce]
          simp only [htopA]
          exact fun hh => hcond.2 hh.symm
    · rw [if_neg hcond] at hc
      exact Or.inl hc

/-- C6 amended witness at a concrete bus. -/
theorem claim_C6_amended_witness :
    mapGet ((((New Nat).On "a" 1).Off "a" []).topics) "a" = none
    ∧ (((New Nat).On "a" 1).Off "a" []).Count "a" = 0
    ∧ (((New Nat).On "a" 1).Off "a" []).stops = [] ++ [⟨1, "a"⟩] := by
  have h := claim_C6_amended (α := Nat) ((New Nat).On "a" 1) "a"
    ⟨"a", [⟨1, false, false⟩]⟩ (by decide)
    (by unfold NodupKeys; decide) (by unfold KeyedByTopic; decide)
  exact ⟨h.1, h.2.1, h.2.2.1⟩

theorem broadcastList_fst (d : List α) (m : List (String × Observer)) :
    (broadcastList d m).1 = m.map (fun p => (p.1, (p.2.Distpatch d).1)) := by
  induction m with
  | nil => simp [broadcastList]
  | cons p rest ih => simp [broadcastList, ih]

theorem broadcastList_calls (d : List α) (m : List (String × Observer)) :
    (broadcastList d m).2.1 = (m.map (fun p => eligCalls p.2 d)).flatten := by
  induction m with
  | nil => simp [broadcastList]
  | cons p rest ih => simp [broadcastList, ih, Distpatch_calls]

/-- C8: `Broadcast(d)` dispatches every existing topic bucket exactly once
(bucket by bucket, including `"*"` when present): the resulting map is the
per-entry dispatch of the old map, the new invocations are exactly the
concatenation over all entries of that bucket's eligible registrations,
the wildcard-delivery toggle is irrelevant to the outcome, and every
once-registration that fired is pruned from its bucket afterwards. -/
theorem claim_C8 (b : Bus α) (d : List α) :
    ((b.Broadcast d).topics = b.topics.map (fun p => (p.1, (p.2.Distpatch d).1)))
    ∧ ((b.Broadcast d).calls
        = b.calls ++ (b.topics.map (fun p => eligCalls p.2 d)).flatten)
    ∧ (∀ x : Bool, (Bus.Broadcast { b with allowAsterisk := x } d)
        = { b.Broadcast d with allowAsterisk := x })
    ∧ (∀ p ∈ b.topics, ∀ e ∈ p.2.events, e.willFire = true →
        ∀ e2 ∈ (p.2.Distpatch d).1.events, e2.tag ≠ e.tag) := by
  refine ⟨?_, ?_, ?_, ?_⟩
  · simp [Bus.Broadcast, Bus.broadcast, broadcastList_fst]
  · simp [Bus.Broadcast, Bus.broadcast, broadcastList_calls]
  · intro x
    simp [Bus.Broadcast, Bus.broadcast]
  · intro p _ e he hw e2 he2
    exact Distpatch_fired_absent p.2 d e he hw e2 he2

/-- C8 witness at a concrete bus with a once-registration. -/
theorem claim_C8_witness :
    ((((New Nat).On "c" 3).Once "c" 2).Broadcast [4]).topics
        = [("c", ⟨"c", [⟨3, false, false⟩]⟩)]
    ∧ (Reg.mk 3 false false).tag ≠ (Reg.mk 2 true false).tag := by
  constructor
  · rw [(claim_C8 (((New Nat).On "c" 3).Once "c" 2) [4]).1]
    decide
  · exact (claim_C8 (((New Nat).On "c" 3).Once "c" 2) [4]).2.2.2
      ("c", ⟨"c", [⟨3, false, false⟩, ⟨2, true, false⟩]⟩) (by decide)
      ⟨2, true, false⟩ (by decide) (by decide)
      ⟨3, false, false⟩ (by decide)

/-- C9 counterexample: (i) with wildcard delivery enabled and a
once-handler on `"*"`, a Dispatch to an unknown topic changes the bus
state (the wildcard handler fires and is pruned: `Count("*")` drops from 1
to 0); (ii) `Off` naming an unregistered handler on a topic whose bucket
was emptied by once-pruning removes the topic entry, another state
change. -/
theorem claim_C9_cex :
    (((((New Nat).AllowAsterisk).Once "*" 7).Count "*" = 1)
      ∧ (((((New Nat).AllowAsterisk).Once "*" 7).Trigger "zzz" [3]).Count "*"
          = 0))
    ∧ ((mapGet (((New Nat).Once "a" 1).Trigger "a" [0]).topics "a").isSome
          = true
      ∧ (mapGet ((((New Nat).Once "a" 1).Trigger "a" [0]).Off "a"
            [99]).topics "a").isSome = false) :=
  ⟨⟨by decide, by decide⟩, ⟨by decide, by decide⟩⟩

/-- C9 amended: Dispatch on a topic with no bucket is a no-op provided the
wildcard toggle is off or no `"*"` bucket exists; `Off` on an unknown topic
is a no-op, and `Off` naming only unregistered handlers on a nonempty
bucket is a no-op; `Count` of a nonexistent topic is 0. -/
theorem claim_C9_amended (b : Bus α) (T : String) :
    (mapGet b.topics T = none →
      ((b.allowAsterisk = false ∨ mapGet b.topics ALL = none) →
        ∀ d, b.Trigger T d = b)
      ∧ (∀ vs, b.Off T vs = b)
      ∧ b.Count T = 0)
    ∧ (∀ (ob : Observer) (vs : List Nat),
        mapGet b.topics T = some ob → vs ≠ [] → ob.events ≠ [] →
        (∀ e ∈ ob.events, vs.contains e.tag = false) → b.Off T vs = b) := by
  constructor
  · intro hnone
    refine ⟨?_, ?_, ?_⟩
    · intro hdisj d
      rw [Bus.Trigger, Bus.dispatch, dispatchTopic_none b T d hnone]
      rcases hdisj with hA | hAll
      · rw [if_neg]
        simp [hA]
      · by_cases hcond : b.allowAsterisk = true ∧ T ≠ ALL
        · rw [if_pos hcond, dispatchTopic_none b ALL d hAll]
        · rw [if_neg hcond]
    · intro vs
      simp [Bus.Off, Bus.removeEvents, hnone]
    · simp [Bus.Count, hnone]
  · intro ob vs hg hvs hev hnotag
    have hfilter1 : ob.events.filter (fun e => !vs.contains e.tag)
        = ob.events := by
      refine List.filter_eq_self.mpr ?_
      intro e he
      rw [hnotag e he]
      rfl
    have hfilter2 : ob.events.filter (fun e => vs.contains e.tag) = [] := by
      refine List.filter_eq_nil_iff.mpr ?_
      intro e he
      rw [hnotag e he]
      simp
    have hre : ob.removeEvents vs = (ob, []) := by
      rw [Observer.removeEvents, if_neg hvs, hfilter1, hfilter2]
    have hlen : ¬ ob.events.length = 0 := by
      intro hh
      exact hev (List.length_eq_zero.mp hh)
    simp [Bus.Off, Bus.removeEvents, hg, hre, hlen,
      mapSet_eq_self b.topics T ob hg]

/-- C9 amended witness at concrete inputs. -/
theorem claim_C9_amended_witness :
    (((New Nat).On "a" 1).Trigger "zzz" [] = (New Nat).On "a" 1)
    ∧ (((New Nat).On "a" 1).Off "a" [99] = (New Nat).On "a" 1) := by
  constructor
  · exact (((claim_C9_amended ((New Nat).On "a" 1) "zzz").1
      (by decide)).1 (Or.inl rfl)) []
  · exact (claim_C9_amended ((New Nat).On "a" 1) "a").2
      ⟨"a", [⟨1, false, false⟩]⟩ [99] (by decide) (by decide) (by decide)
      (by decide)

/-- C10: when handler `H` (identity token `tg`) is subscribed any number of
times on `T`, a single `Off(T, H)` removes every registration whose tag
equals `tg` — `Count(T)` drops by their number, the bucket keeps exactly
the other-handler registrations in order (the entry is pruned when none
remain), and every removed registration gets an `OnStop` scheduled. -/
theorem claim_C10 (b : Bus α) (T : String) (tg : Nat) (ob : Observer)
    (hg : mapGet b.topics T = some ob) (hnd : NodupKeys b.topics) :
    ((b.Off T [tg]).Count T
        = (ob.events.filter (fun e => e.tag != tg)).length)
    ∧ (mapGet (b.Off T [tg]).topics T
        = if ob.events.filter (fun e => e.tag != tg) = [] then none
          else some { ob with
            events := ob.events.filter (fun e => e.tag != tg) })
    ∧ ((b.Off T [tg]).stops
        = b.stops ++ (ob.events.filter (fun e => e.tag == tg)).map
            (fun e => Stop.mk e.tag T)) := by
  have hc : ∀ x : Nat, (([tg] : List Nat).contains x) = (x == tg) := by
    intro x
    simp [List.contains, List.elem]
    cases x == tg <;> rfl
  have h1 : ob.events.filter (fun e => !(([tg] : List Nat).contains e.tag))
      = ob.events.filter (fun e => e.tag != tg) := by
    refine List.filter_congr ?_
    intro e _
    rw [hc e.tag]
    rfl
  have h2 : ob.events.filter (fun e => (([tg] : List Nat).contains e.tag))
      = ob.events.filter (fun e => e.tag == tg) := by
    refine List.filter_congr ?_
    intro e _
    rw [hc e.tag]
  have hre : ob.removeEvents [tg]
      = ({ ob with events := ob.events.filter (fun e => e.tag != tg) },
         ob.events.filter (fun e => e.tag == tg)) := by
    rw [Observer.removeEvents, if_neg (by simp), h1, h2]
  have hstops : (b.Off T [tg]).stops
      = b.stops ++ (ob.events.filter (fun e => e.tag == tg)).map
          (fun e => Stop.mk e.tag T) := by
    by_cases hp2 : ob.events.filter (fun e => e.tag == tg) = [] <;>
      simp [Bus.Off, Bus.removeEvents, hg, hre, hp2]
  by_cases hnil : ob.events.filter (fun e => e.tag != tg) = []
  · have hget : mapGet (b.Off T [tg]).topics T = none := by
      simp [Bus.Off, Bus.removeEvents, hg, hre, hnil,
        mapGet_remove_self b.topics T hnd]
    refine ⟨?_, ?_, hstops⟩
    · simp [Bus.Count, hget, hnil]
    · rw [hget, if_pos hnil]
  · have hlen : ¬ (ob.events.filter (fun e => e.tag != tg)).length = 0 := by
      intro hh
      exact hnil (List.length_eq_zero.mp hh)
    have hget : mapGet (b.Off T [tg]).topics T
        = some { ob with events := ob.events.filter (fun e => e.tag != tg) } := by
      simp only [Bus.Off, Bus.removeEvents, hg, hre, hlen, if_neg]
      exact mapGet_set_self b.topics T _ ob hg
    refine ⟨?_, ?_, hstops⟩
    · simp [Bus.Count, hget, Observer.Count]
    · rw [hget, if_neg hnil]

/-- C10 witness: the same handler subscribed twice is removed twice by one
`Off`. -/
theorem claim_C10_witness :
    (((((New Nat).On "t" 1).On "t" 1).On "t" 2).Off "t" [1]).Count "t" = 1
    ∧ (((((New Nat).On "t" 1).On "t" 1).On "t" 2).Off "t" [1]).stops
        = [⟨1, "t"⟩, ⟨1, "t"⟩] := by
  have h := claim_C10 ((((New Nat).On "t" 1).On "t" 1).On "t" 2) "t" 1
    ⟨"t", [⟨1, false, false⟩, ⟨1, false, false⟩, ⟨2, false, false⟩]⟩
    (by decide) (by unfold NodupKeys; decide)
  constructor
  · rw [h.1]
    decide
  · rw [h.2.2]
    decide

end EventBus
